import Mathlib

/-!
Verification development for the gridwalk map-viewer frontend.

The development shallowly embeds the browser-facing logic of the repository:
JSON values and the pair JSON.stringify / JSON.parse, browser local storage,
the page event handlers of both page versions in src/app/page.tsx, the
connections modal of the unnamed component file, and the map component in
src/components/Map/Map.tsx.  Strings are modelled as lists of characters.

Modelling notes for the JSON builtins.  JSON values are modelled with integer
numerals (the numeric content of stored GeoJSON is opaque to every property
proved here, and floating point is out of scope).  stringifyJ models
JSON.stringify with canonical output: no whitespace, keys in insertion order,
escaping of the quote and backslash characters.  jsonParse models JSON.parse
on that canonical fragment: it accepts every string stringifyJ can produce
(theorem jsonParse_stringify below) and rejects strings that are not JSON
texts, such as bare URLs.  Whitespace skipping, fractional numerals and
unicode escapes are not modelled; no property below depends on them.
-/

mutual
inductive Json where
  | null : Json
  | bool (b : Bool) : Json
  | num (i : Int) : Json
  | str (s : List Char) : Json
  | arr (xs : JsonArr) : Json
  | obj (xs : JsonObj) : Json
deriving DecidableEq
inductive JsonArr where
  | nil : JsonArr
  | cons (hd : Json) (tl : JsonArr) : JsonArr
deriving DecidableEq
inductive JsonObj where
  | nil : JsonObj
  | cons (k : List Char) (v : Json) (tl : JsonObj) : JsonObj
deriving DecidableEq
end

def escapeChar (c : Char) : List Char :=
  if c = '"' then ['\\', '"'] else if c = '\\' then ['\\', '\\'] else [c]

def escapeStr : List Char → List Char
  | [] => []
  | c :: cs => escapeChar c ++ escapeStr cs

def natDigitsAux : Nat → Nat → List Char → List Char
  | 0, _, acc => acc
  | fuel + 1, n, acc =>
    if n = 0 then acc
    else natDigitsAux fuel (n / 10) (Nat.digitChar (n % 10) :: acc)

def natDigits (n : Nat) : List Char :=
  if n = 0 then ['0'] else natDigitsAux n n []

def stringifyInt (i : Int) : List Char :=
  if i < 0 then '-' :: natDigits i.natAbs else natDigits i.natAbs

mutual
def stringifyJ : Json → List Char
  | .num i => stringifyInt i
  | .str s => '"' :: (escapeStr s ++ ['"'])
  | .arr xs => '[' :: stringifyArrHead xs
  | .obj xs => '{' :: stringifyObjHead xs
  | .null => "null".toList
  | .bool true => "true".toList
  | .bool false => "false".toList
def stringifyArrHead : JsonArr → List Char
  | .nil => [']']
  | .cons h t => stringifyJ h ++ stringifyArrTail t
def stringifyArrTail : JsonArr → List Char
  | .nil => [']']
  | .cons h t => ',' :: (stringifyJ h ++ stringifyArrTail t)
def stringifyObjHead : JsonObj → List Char
  | .nil => ['}']
  | .cons k v t => '"' :: (escapeStr k ++ ('"' :: ':' :: (stringifyJ v ++ stringifyObjTail t)))
def stringifyObjTail : JsonObj → List Char
  | .nil => ['}']
  | .cons k v t => ',' :: '"' :: (escapeStr k ++ ('"' :: ':' :: (stringifyJ v ++ stringifyObjTail t)))
end

def unescapeChar (c : Char) : Option Char :=
  if c = '"' then some '"'
  else if c = '\\' then some '\\'
  else if c = '/' then some '/'
  else if c = 'n' then some '\n'
  else if c = 't' then some '\t'
  else if c = 'r' then some '\r'
  else none

def parseStringBody : List Char → Option (List Char × List Char)
  | [] => none
  | c :: cs =>
    if c = '"' then some ([], cs)
    else if c = '\\' then
      match cs with
      | [] => none
      | e :: cs2 =>
        match unescapeChar e with
        | none => none
        | some u =>
          match parseStringBody cs2 with
          | none => none
          | some (s, r) => some (u :: s, r)
    else
      match parseStringBody cs with
      | none => none
      | some (s, r) => some (c :: s, r)

def takeDigits : List Char → (List Char × List Char)
  | [] => ([], [])
  | c :: cs =>
    if c.isDigit then
      let p := takeDigits cs
      (c :: p.1, p.2)
    else ([], c :: cs)

def digitsToNat (ds : List Char) : Nat :=
  ds.foldl (fun a c => 10 * a + (c.toNat - 48)) 0

def dropLit : List Char → List Char → Option (List Char)
  | [], cs => some cs
  | p :: ps, c :: cs => if c = p then dropLit ps cs else none
  | _ :: _, [] => none

mutual
def parseValue : Nat → List Char → Option (Json × List Char)
  | 0, _ => none
  | _ + 1, [] => none
  | f + 1, c :: r =>
    if c = 'n' then
      match dropLit ['u', 'l', 'l'] r with
      | some r2 => some (.null, r2)
      | none => none
    else if c = 't' then
      match dropLit ['r', 'u', 'e'] r with
      | some r2 => some (.bool true, r2)
      | none => none
    else if c = 'f' then
      match dropLit ['a', 'l', 's', 'e'] r with
      | some r2 => some (.bool false, r2)
      | none => none
    else if c = '"' then
      match parseStringBody r with
      | some (s, r2) => some (.str s, r2)
      | none => none
    else if c = '[' then
      match parseArrHead f r with
      | some (xs, r2) => some (.arr xs, r2)
      | none => none
    else if c = '{' then
      match parseObjHead f r with
      | some (xs, r2) => some (.obj xs, r2)
      | none => none
    else if c = '-' then
      match takeDigits r with
      | ([], _) => none
      | (ds, r2) => some (.num (-(digitsToNat ds : Int)), r2)
    else if c.isDigit then
      let p := takeDigits (c :: r)
      some (.num ((digitsToNat p.1 : Int)), p.2)
    else none
def parseArrHead : Nat → List Char → Option (JsonArr × List Char)
  | 0, _ => none
  | _ + 1, [] => none
  | f + 1, c :: r =>
    if c = ']' then some (.nil, r)
    else
      match parseValue f (c :: r) with
      | none => none
      | some (j, r2) =>
        match parseArrTail f r2 with
        | none => none
        | some (t, r3) => some (.cons j t, r3)
def parseArrTail : Nat → List Char → Option (JsonArr × List Char)
  | 0, _ => none
  | _ + 1, [] => none
  | f + 1, c :: r =>
    if c = ']' then some (.nil, r)
    else if c = ',' then
      match parseValue f r with
      | none => none
      | some (j, r2) =>
        match parseArrTail f r2 with
        | none => none
        | some (t, r3) => some (.cons j t, r3)
    else none
def parseObjHead : Nat → List Char → Option (JsonObj × List Char)
  | 0, _ => none
  | _ + 1, [] => none
  | f + 1, c :: r =>
    if c = '}' then some (.nil, r)
    else if c = '"' then
      match parseStringBody r with
      | none => none
      | some (k, r2) =>
        match r2 with
        | ':' :: r3 =>
          match parseValue f r3 with
          | none => none
          | some (v, r4) =>
            match parseObjTail f r4 with
            | none => none
            | some (t, r5) => some (.cons k v t, r5)
        | _ => none
    else none
def parseObjTail : Nat → List Char → Option (JsonObj × List Char)
  | 0, _ => none
  | _ + 1, [] => none
  | f + 1, c :: r =>
    if c = '}' then some (.nil, r)
    else if c = ',' then
      match r with
      | '"' :: r1 =>
        match parseStringBody r1 with
        | none => none
        | some (k, r2) =>
          match r2 with
          | ':' :: r3 =>
            match parseValue f r3 with
            | none => none
            | some (v, r4) =>
              match parseObjTail f r4 with
              | none => none
              | some (t, r5) => some (.cons k v t, r5)
          | _ => none
      | _ => none
    else none
end

def jsonParse (s : List Char) : Option Json :=
  match parseValue (s.length + 1) s with
  | some (j, []) => some j
  | _ => none

def headNotDigit : List Char → Bool
  | [] => true
  | c :: _ => !c.isDigit

mutual
def sizeJ : Json → Nat
  | .str _ => 1
  | .num _ => 1
  | .arr xs => sizeA xs + 1
  | .obj xs => sizeO xs + 1
  | .null => 1
  | .bool _ => 1
def sizeA : JsonArr → Nat
  | .nil => 1
  | .cons h t => max (sizeJ h) (sizeA t) + 1
def sizeO : JsonObj → Nat
  | .nil => 1
  | .cons _ v t => max (sizeJ v) (sizeO t) + 1
end

def RtStmt (fuel : Nat) : Prop :=
  (∀ (j : Json) (rest : List Char), sizeJ j ≤ fuel → headNotDigit rest = true →
      parseValue fuel (stringifyJ j ++ rest) = some (j, rest))
  ∧ (∀ (xs : JsonArr) (rest : List Char), sizeA xs ≤ fuel →
      parseArrHead fuel (stringifyArrHead xs ++ rest) = some (xs, rest))
  ∧ (∀ (xs : JsonArr) (rest : List Char), sizeA xs ≤ fuel →
      parseArrTail fuel (stringifyArrTail xs ++ rest) = some (xs, rest))
  ∧ (∀ (xs : JsonObj) (rest : List Char), sizeO xs ≤ fuel →
      parseObjHead fuel (stringifyObjHead xs ++ rest) = some (xs, rest))
  ∧ (∀ (xs : JsonObj) (rest : List Char), sizeO xs ≤ fuel →
      parseObjTail fuel (stringifyObjTail xs ++ rest) = some (xs, rest))

/-! Local storage.  Modelled as a list of bindings; the most recent binding of
a key shadows older ones, which matches the replacing behaviour of the
browser localStorage.setItem call. -/

abbrev Store := List (List Char × List Char)

def setItem (st : Store) (k v : List Char) : Store := (k, v) :: st

def getItem : Store → List Char → Option (List Char)
  | [], _ => none
  | (k, v) :: st, k2 => if k2 = k then some v else getItem st k2

def kActiveLayers : List Char := "activeLayers".toList

def kUploadedFiles : List Char := "uploadedFiles".toList

def kActiveFiles : List Char := "activeFiles".toList

def fileKey (name : List Char) : List Char := "file:".toList ++ name

/-! Encoding of string lists, as produced by JSON.stringify applied to the
arrays of layer and file names that the page persists. -/

def strArrOf : List (List Char) → JsonArr
  | [] => .nil
  | s :: t => .cons (.str s) (strArrOf t)

def encodeStrList (l : List (List Char)) : List Char := stringifyJ (.arr (strArrOf l))

def asStrArr : JsonArr → Option (List (List Char))
  | .nil => some []
  | .cons (.str s) t => (asStrArr t).map (fun l => s :: l)
  | .cons _ _ => none

def asStrList : Json → Option (List (List Char))
  | .arr xs => asStrArr xs
  | _ => none

def decodeStrList (s : List Char) : Option (List (List Char)) :=
  (jsonParse s).bind asStrList

/-! Page version 1 (the first document of src/app/page.tsx): drag-and-drop
upload, layer and file handlers, and the mount effect. -/

def startsWith : List Char → List Char → Bool
  | _, [] => true
  | [], _ :: _ => false
  | c :: cs, p :: ps => c == p && startsWith cs ps

def endsWithJson (name : List Char) : Bool :=
  let lower := name.map Char.toLower
  startsWith lower.reverse ".json".toList.reverse
    || startsWith lower.reverse ".geojson".toList.reverse

structure DropResult where
  store : Store
  uploadedFiles : List (List Char)
  uiError : Option (List Char)
deriving DecidableEq

/-- Embedding of the FileReader onload handler inside handleDrop of page
version 1 (src/app/page.tsx lines 73 to 92) applied to one dropped file.
On a parse failure the catch block only logs to the console (line 87), so
the uiError field, which records any user-visible error message produced by
the handler, stays none on every path. -/
def processDroppedFile (st : Store) (uploaded : List (List Char))
    (name content : List Char) : DropResult :=
  if endsWithJson name then
    match jsonParse content with
    | some j =>
      let st1 := setItem st (fileKey name) (stringifyJ j)
      let up1 := uploaded ++ [name]
      { store := setItem st1 kUploadedFiles (encodeStrList up1)
        uploadedFiles := up1
        uiError := none }
    | none => { store := st, uploadedFiles := uploaded, uiError := none }
  else { store := st, uploadedFiles := uploaded, uiError := none }

/-- Embedding of handleLayerToggle (identical in both page versions): set the
state and persist it under the activeLayers key. -/
def handleLayerToggle (st : Store) (updatedLayers : List (List Char)) :
    Store × List (List Char) :=
  (setItem st kActiveLayers (encodeStrList updatedLayers), updatedLayers)

/-- Embedding of handleFileUpload of page version 1. -/
def handleFileUpload (st : Store) (uploaded : List (List Char)) (fileName : List Char) :
    Store × List (List Char) :=
  let up := uploaded ++ [fileName]
  (setItem st kUploadedFiles (encodeStrList up), up)

structure DeleteResult where
  store : Store
  uploadedFiles : List (List Char)
  activeFiles : List (List Char)
deriving DecidableEq

/-- Embedding of handleFileDelete of page version 1 (src/app/page.tsx lines
174 to 183): filter the name out of both lists and persist both. -/
def handleFileDelete (st : Store) (uploaded active : List (List Char))
    (fileName : List Char) : DeleteResult :=
  let up := uploaded.filter (fun f => f != fileName)
  let st1 := setItem st kUploadedFiles (encodeStrList up)
  let ac := active.filter (fun f => f != fileName)
  { store := setItem st1 kActiveFiles (encodeStrList ac)
    uploadedFiles := up
    activeFiles := ac }

/-- Embedding of handleFileToggle of page version 1. -/
def handleFileToggle (st : Store) (active : List (List Char)) (fileName : List Char)
    (isActive : Bool) : Store × List (List Char) :=
  let ac := if isActive then active ++ [fileName] else active.filter (fun f => f != fileName)
  (setItem st kActiveFiles (encodeStrList ac), ac)

/-- Embedding of one branch of the mount effect of page version 1
(src/app/page.tsx lines 95 to 113).  A missing key, and also a stored empty
string, which is falsy in the javascript condition, leave the state at the
given default.  Otherwise the stored string is parsed; the none result models
JSON.parse throwing, or a stored value that is not an array of strings. -/
def mountList (st : Store) (key : List Char) (deflt : List (List Char)) :
    Option (List (List Char)) :=
  match getItem st key with
  | none => some deflt
  | some s => if s = [] then some deflt else decodeStrList s

def mountActiveLayers (st : Store) : Option (List (List Char)) :=
  mountList st kActiveLayers ["roads".toList]

def mountUploadedFiles (st : Store) : Option (List (List Char)) :=
  mountList st kUploadedFiles []

def mountActiveFiles (st : Store) : Option (List (List Char)) :=
  mountList st kActiveFiles []

/-! Page version 2 (the second document of src/app/page.tsx): lazy state
initializers and the modal-confirmed upload handler. -/

/-- Modelled from the spec: getLocalStorageItem of utils/fileHandler is not
under src/.  Per the spec, layer and file selection persists in browser local
storage and is restored on mount; the function returns the list parsed from
the stored value under the key, or the given default when the key is absent
or the value does not parse. -/
def getLocalStorageItem (st : Store) (key : List Char) (deflt : List (List Char)) :
    List (List Char) :=
  match getItem st key with
  | none => deflt
  | some s => (decodeStrList s).getD deflt

def initialActiveLayers (st : Store) : List (List Char) :=
  getLocalStorageItem st kActiveLayers ["roads".toList]

def initialUploadedFiles (st : Store) : List (List Char) :=
  getLocalStorageItem st kUploadedFiles []

def initialActiveFiles (st : Store) : List (List Char) :=
  getLocalStorageItem st kActiveFiles []

/-- Outcome of the remote upload fetch in handleLayerNameConfirm: the fetch
rejects, the response is not ok, the response body fails to parse as JSON, or
the body carries a url field. -/
inductive UploadResponse where
  | netError : UploadResponse
  | notOk : UploadResponse
  | okBadJson : UploadResponse
  | okUrl (url : List Char) : UploadResponse
deriving DecidableEq

structure ConfirmState where
  store : Store
  uploadedFiles : List (List Char)
  uploadError : Option (List Char)
  modalOpen : Bool
  pendingName : List Char
  pendingContent : List Char
deriving DecidableEq

def uploadErrMsg : List Char := "Error saving file. Please try again.".toList

/-- Embedding of handleLayerNameConfirm of page version 2 (src/app/page.tsx
lines 377 to 431).  The pending content is parsed; a remote upload stores the
url returned by the server verbatim under the file key, a local upload stores
the re-serialized parsed value; on success the name is appended to the
uploadedFiles state and the list is persisted.  Any throw, from JSON.parse,
from a not-ok response or from a response body that fails to parse, reaches
the catch block which sets uploadError.  The trailing lines close the modal
and reset the pending name and content on every path.  safeSetItem of
utils/fileHandler is not under src/ and is modelled as a plain setItem. -/
def handleLayerNameConfirm (s : ConfirmState) (layerName : List Char) (isRemote : Bool)
    (resp : UploadResponse) : ConfirmState :=
  let s1 :=
    match jsonParse s.pendingContent with
    | none => { s with uploadError := some uploadErrMsg }
    | some j =>
      if isRemote then
        match resp with
        | .okUrl url =>
          let st1 := setItem s.store (fileKey layerName) url
          let up := s.uploadedFiles ++ [layerName]
          { s with store := setItem st1 kUploadedFiles (encodeStrList up)
                   uploadedFiles := up }
        | _ => { s with uploadError := some uploadErrMsg }
      else
        let st1 := setItem s.store (fileKey layerName) (stringifyJ j)
        let up := s.uploadedFiles ++ [layerName]
        { s with store := setItem st1 kUploadedFiles (encodeStrList up)
                 uploadedFiles := up }
  { s1 with modalOpen := false, pendingName := [], pendingContent := [] }

/-! Connections modal (src/unnamed/part_001). -/

inductive ConnResponse where
  | netError : ConnResponse
  | notOk : ConnResponse
  | okBadJson : ConnResponse
  | ok (data : Json) : ConnResponse
deriving DecidableEq

structure ConnState where
  connections : Option Json
  isLoading : Bool
  error : Option (List Char)
deriving DecidableEq

def connErrMsg : List Char := "Error fetching connections. Please try again later.".toList

/-- Embedding of fetchConnections of the connections modal (src/unnamed/
part_001 lines 24 to 40).  The connections field records the value passed to
setConnections by this call, none when the call did not set it.  Every throw,
from the fetch, from the not-ok check or from response.json, reaches the
catch block which sets the error text; the finally block clears isLoading. -/
def fetchConnections (resp : ConnResponse) : ConnState :=
  match resp with
  | .ok data => { connections := some data, isLoading := false, error := none }
  | _ => { connections := none, isLoading := false, error := some connErrMsg }

/-! Map component (src/components/Map/Map.tsx). -/

structure RequestSpec where
  url : List Char
  headers : List (List Char × List Char)
  credentials : Option (List Char)
deriving DecidableEq

def osApiBase : List Char := "https://api.os.uk".toList

def bearerValue (token : Option (List Char)) : List Char :=
  "Bearer ".toList ++ token.getD []

/-- Embedding of the transformRequest callback of initMap (src/components/
Map/Map.tsx lines 106 to 121).  The token argument models the access_token
field held by tokenDataRef, none when no token data is held; the or-empty
fallback of the source makes the bearer value empty in that case. -/
def transformRequest (origin : List Char) (token : Option (List Char)) (url : List Char) :
    Option RequestSpec :=
  if startsWith url osApiBase then
    some { url := url
           headers := [("Authorization".toList, bearerValue token),
                       ("Content-Type".toList, "application/json".toList)]
           credentials := none }
  else if startsWith url origin then
    some { url := url, headers := [], credentials := some "same-origin".toList }
  else none

/-- Modelled from the spec: handleError of utils/mapHandler is not under
src/.  Per the spec, errors are caught and surfaced as UI messages; the
function produces the message the error state is set to. -/
def handleError (context errMsg : List Char) : Option (List Char) :=
  some (context ++ (' ' :: errMsg))

structure MapLayer where
  id : List Char
  type : List Char
deriving DecidableEq

structure MapState where
  layers : List MapLayer
  sources : List (List Char)
deriving DecidableEq

def geoLayerTag : List Char := "geojson-layer-".toList

def layerId (f : List Char) : List Char := geoLayerTag ++ f

def sourceId (f : List Char) : List Char := "geojson-source-".toList ++ f

/-- First-occurrence string replacement, the behaviour of the javascript
String.replace method with a string pattern. -/
def replaceFirst (pat rep : List Char) : List Char → List Char
  | [] => []
  | c :: cs =>
    if startsWith (c :: cs) pat then rep ++ (c :: cs).drop pat.length
    else c :: replaceFirst pat rep cs

def layerToSource (id : List Char) : List Char :=
  replaceFirst "layer".toList "source".toList id

def staleLayer (activeFiles : List (List Char)) (l : MapLayer) : Bool :=
  startsWith l.id geoLayerTag
    && !(activeFiles.contains (replaceFirst geoLayerTag [] l.id))

/-- Embedding of the removal pass of the activeFiles sync effect
(src/components/Map/Map.tsx lines 184 to 193): every layer whose id carries
the geojson-layer- tag and whose file name is not active is removed, together
with the source named by replacing the first occurrence of layer with source
in the layer id.  The source iterates over a getStyle snapshot and removes by
id, which the filters reproduce. -/
def removeStale (m : MapState) (activeFiles : List (List Char)) : MapState :=
  { layers := m.layers.filter (fun l => !staleLayer activeFiles l)
    sources := m.sources.filter
      (fun s => !(m.layers.any (fun l => staleLayer activeFiles l && (layerToSource l.id == s)))) }

def lookupMem : JsonObj → List Char → Option Json
  | .nil, _ => none
  | .cons k v t, key => if k = key then some v else lookupMem t key

/-- Modelled from the spec: transformGeoJsonData of utils/mapHandler is not
under src/.  Per the spec it performs coordinate transformation of uploaded
GeoJSON; it is modelled as acting on the features member of a feature
collection, preserving the structure of the value, with the coordinate
values themselves opaque; on a value whose features member is not an array
the property access throws, modelled as none. -/
def transformGeoJsonData (j : Json) : Option Json :=
  match j with
  | .obj ms =>
    match lookupMem ms "features".toList with
    | some (.arr _) => some j
    | _ => none
  | _ => none

/-- Guard for the console.log line of the sync effect (src/components/Map/
Map.tsx lines 206 to 209), which reads features[0].geometry of the
transformed value: reading index 0 of an empty features array yields
undefined and the geometry access throws. -/
def hasFirstFeature : Json → Bool
  | .obj ms =>
    match lookupMem ms "features".toList with
    | some (.arr (.cons _ _)) => true
    | _ => false
  | _ => false

/-- Embedding of the addition pass of the activeFiles sync effect
(src/components/Map/Map.tsx lines 195 to 236) for one active file name:
nothing happens when the source already exists, when the stored entry is
missing, or when any step of parse, transform or the features[0].geometry
read throws, the throw being caught by the catch block which only logs;
otherwise the geojson source and the fill layer for the name are added. -/
def addFileLayer (st : Store) (m : MapState) (f : List Char) : MapState :=
  if m.sources.contains (sourceId f) then m
  else
    match getItem st (fileKey f) with
    | none => m
    | some data =>
      match jsonParse data with
      | none => m
      | some j =>
        match transformGeoJsonData j with
        | none => m
        | some tj =>
          if hasFirstFeature tj then
            { layers := m.layers ++ [{ id := layerId f, type := "fill".toList }]
              sources := m.sources ++ [sourceId f] }
          else m

/-- Embedding of the whole activeFiles sync effect: the removal pass over the
layer snapshot, then the addition pass over the active file names in order. -/
def syncEffect (st : Store) (m : MapState) (activeFiles : List (List Char)) : MapState :=
  activeFiles.foldl (addFileLayer st) (removeStale m activeFiles)

/-- Well-formedness of the map state over geojson ids: a geojson source for a
name is present exactly when a layer with the corresponding geojson layer id
is present, and every layer carrying the geojson layer tag is a fill layer.
The initial empty map satisfies it and both passes of the sync effect
preserve it. -/
def geoWf (m : MapState) : Prop :=
  (∀ f : List Char, sourceId f ∈ m.sources ↔ ∃ l ∈ m.layers, l.id = layerId f)
  ∧ (∀ l ∈ m.layers, startsWith l.id geoLayerTag = true → l.type = "fill".toList)

/-! HTTP endpoints fetched by the sources. -/

def joinComma : List (List Char) → List Char
  | [] => []
  | [s] => s
  | s :: t => s ++ (',' :: joinComma t)

def tilesEndpoint : List Char := "/api/tiles/\x7bz\x7d/\x7bx\x7d/\x7by\x7d".toList

/-- Embedding of the data url of the MVT layer of page version 1
(src/app/page.tsx line 117). -/
def mvtLayerData (activeLayers : List (List Char)) : List Char :=
  tilesEndpoint ++ "?layers=".toList ++ joinComma activeLayers

def uploadEndpoint : List Char := "/api/remote-file-s3-upload".toList

def connectionsEndpoint : List Char := "/api/connections-modal".toList

/-- The distinct endpoint paths fetched anywhere in the sources: the tile
server template, the remote upload endpoint of handleLayerNameConfirm, and
the connections listing endpoint of the connections modal. -/
def consumedEndpoints : List (List Char) :=
  [tilesEndpoint, uploadEndpoint, connectionsEndpoint]

/-- Validity of a stored string: JSON.parse succeeds on it. -/
def validJson (v : List Char) : Bool := (jsonParse v).isSome

/-- Relation between an old and a new store: every binding readable from the
new store is either readable unchanged from the old store or holds a valid
JSON string. -/
def newValsValid (old new : Store) : Prop :=
  ∀ k v, getItem new k = some v → getItem old k = some v ∨ validJson v = true


/-! Round trip of the modelled JSON.stringify and JSON.parse. -/

theorem parseStringBody_round (s : List Char) (rest : List Char) :
    parseStringBody (escapeStr s ++ ('"' :: rest)) = some (s, rest) := by
  induction s with
  | nil =>
    rw [parseStringBody.eq_def]
    simp [escapeStr]
  | cons c cs ih =>
    by_cases hq : c = '"'
    · subst hq
      show parseStringBody ('\\' :: ('"' :: (escapeStr cs ++ '"' :: rest))) = _
      rw [parseStringBody.eq_def]
      simp [unescapeChar, ih]
    · by_cases hb : c = '\\'
      · subst hb
        show parseStringBody ('\\' :: ('\\' :: (escapeStr cs ++ '"' :: rest))) = _
        rw [parseStringBody.eq_def]
        simp [unescapeChar, ih]
      · have he : escapeStr (c :: cs) ++ '"' :: rest = c :: (escapeStr cs ++ '"' :: rest) := by
          simp [escapeStr, escapeChar, hq, hb]
        rw [he, parseStringBody.eq_def]
        simp [hq, hb, ih]

theorem natDigitsAux_zero (fuel : Nat) (acc : List Char) : natDigitsAux fuel 0 acc = acc := by
  cases fuel <;> simp [natDigitsAux]

theorem valAux_append (a : Nat) (xs ys : List Char) :
    List.foldl (fun a c => 10 * a + (c.toNat - 48)) a (xs ++ ys)
      = List.foldl (fun a c => 10 * a + (c.toNat - 48)) (List.foldl (fun a c => 10 * a + (c.toNat - 48)) a xs) ys :=
  List.foldl_append ..

theorem digitChar_decode (d : Nat) (h : d < 10) : (Nat.digitChar d).toNat - 48 = d := by
  interval_cases d <;> decide

theorem digitChar_isDigit (d : Nat) (h : d < 10) : (Nat.digitChar d).isDigit = true := by
  interval_cases d <;> decide

theorem natDigitsAux_spec (n : Nat) : ∀ fuel acc, n ≤ fuel → n ≠ 0 →
    ∃ pre, natDigitsAux fuel n acc = pre ++ acc ∧ pre ≠ [] ∧
      (∀ c ∈ pre, c.isDigit = true) ∧
      (∀ a, List.foldl (fun a c => 10 * a + (c.toNat - 48)) a pre = a * 10 ^ pre.length + n) := by
  induction n using Nat.strong_induction_on with
  | _ n ih =>
    intro fuel acc hle hne
    obtain ⟨f, rfl⟩ : ∃ f, fuel = f + 1 := ⟨fuel - 1, by omega⟩
    rw [natDigitsAux, if_neg hne]
    by_cases h10 : n / 10 = 0
    · have hlt10 : n < 10 := by omega
      have hmod : n % 10 = n := Nat.mod_eq_of_lt hlt10
      rw [h10, natDigitsAux_zero]
      refine ⟨[Nat.digitChar (n % 10)], rfl, by simp, ?_, ?_⟩
      · intro c hc
        simp at hc
        subst hc
        exact digitChar_isDigit _ (Nat.mod_lt _ (by decide))
      · intro a
        simp only [List.foldl, List.length_cons, List.length_nil]
        rw [hmod, digitChar_decode n hlt10]
        ring
    · have hlt : n / 10 < n := Nat.div_lt_self (Nat.pos_of_ne_zero hne) (by decide)
      have hfle : n / 10 ≤ f := by omega
      obtain ⟨pre, heq, hnil, hdig, hval⟩ := ih (n / 10) hlt f (Nat.digitChar (n % 10) :: acc) hfle h10
      refine ⟨pre ++ [Nat.digitChar (n % 10)], by simp [heq], by simp, ?_, ?_⟩
      · intro c hc
        simp at hc
        rcases hc with h | h
        · exact hdig c h
        · subst h
          exact digitChar_isDigit _ (Nat.mod_lt _ (by decide))
      · intro a
        rw [valAux_append, hval]
        simp only [List.foldl, List.length_append, List.length_cons, List.length_nil]
        rw [digitChar_decode _ (Nat.mod_lt n (by decide))]
        have hdm := Nat.div_add_mod n 10
        rw [Nat.pow_succ]
        calc 10 * (a * 10 ^ pre.length + n / 10) + n % 10
            = a * (10 ^ pre.length * 10) + (10 * (n / 10) + n % 10) := by ring
          _ = a * (10 ^ pre.length * 10) + n := by rw [hdm]

theorem digitsToNat_natDigits (n : Nat) : digitsToNat (natDigits n) = n := by
  by_cases h : n = 0
  · subst h; decide
  · obtain ⟨pre, heq, _, _, hval⟩ := natDigitsAux_spec n n [] (Nat.le_refl n) h
    simp [natDigits, h, digitsToNat, heq, hval]

theorem sizeJ_pos (j : Json) : 1 ≤ sizeJ j := by
  cases j <;> simp [sizeJ]

theorem natDigits_spec (n : Nat) :
    natDigits n ≠ [] ∧ (∀ c ∈ natDigits n, c.isDigit = true) ∧ digitsToNat (natDigits n) = n := by
  by_cases h : n = 0
  · subst h
    refine ⟨by decide, ?_, by decide⟩
    intro c hc
    simp [natDigits] at hc
    subst hc
    decide
  · obtain ⟨pre, heq, hnil, hdig, hval⟩ := natDigitsAux_spec n n [] (Nat.le_refl n) h
    rw [natDigits, if_neg h, heq]
    simp only [List.append_nil]
    exact ⟨hnil, hdig, by simp [digitsToNat, hval]⟩

theorem takeDigits_round (ds : List Char) (rest : List Char)
    (hds : ∀ c ∈ ds, c.isDigit = true) (hrest : headNotDigit rest = true) :
    takeDigits (ds ++ rest) = (ds, rest) := by
  induction ds with
  | nil =>
    simp only [List.nil_append]
    cases rest with
    | nil => rfl
    | cons c cs =>
      rw [takeDigits.eq_def]
      simp [headNotDigit] at hrest
      simp [hrest]
  | cons c cs ih =>
    rw [List.cons_append, takeDigits.eq_def]
    have hc : c.isDigit = true := hds c (by simp)
    simp [hc, ih (fun x hx => hds x (by simp [hx]))]

theorem digit_notLit (c : Char) (h : c.isDigit = true) (x : Char)
    (hx : x.isDigit = false) : c ≠ x := by
  intro he
  subst he
  rw [h] at hx
  cases hx

theorem stringify_head (j : Json) :
    ∃ c cs, stringifyJ j = c :: cs ∧
      (c = 'n' ∨ c = 't' ∨ c = 'f' ∨ c = '"' ∨ c = '[' ∨ c = '{' ∨ c = '-' ∨ c.isDigit = true) := by
  cases j with
  | null => exact ⟨'n', _, rfl, by simp⟩
  | bool b =>
    cases b
    · exact ⟨'f', _, rfl, by simp⟩
    · exact ⟨'t', _, rfl, by simp⟩
  | num i =>
    by_cases hi : i < 0
    · refine ⟨'-', natDigits i.natAbs, ?_, by simp⟩
      simp [stringifyJ, stringifyInt, hi]
    · obtain ⟨hne, hdig, _⟩ := natDigits_spec i.natAbs
      obtain ⟨d, ds, hd⟩ := List.exists_cons_of_ne_nil hne
      refine ⟨d, ds, ?_, ?_⟩
      · simp [stringifyJ, stringifyInt, hi, hd]
      · have := hdig d (by rw [hd]; simp)
        tauto
  | str s => exact ⟨'"', _, rfl, by simp⟩
  | arr xs => exact ⟨'[', _, rfl, by simp⟩
  | obj xs => exact ⟨'{', _, rfl, by simp⟩

theorem arrTail_head (t : JsonArr) :
    ∃ c cs, stringifyArrTail t = c :: cs ∧ (c = ']' ∨ c = ',') := by
  cases t with
  | nil => exact ⟨']', [], rfl, by simp⟩
  | cons h t => exact ⟨',', _, rfl, by simp⟩

theorem objTail_head (t : JsonObj) :
    ∃ c cs, stringifyObjTail t = c :: cs ∧ (c = '}' ∨ c = ',') := by
  cases t with
  | nil => exact ⟨'}', [], rfl, by simp⟩
  | cons k v t => exact ⟨',', _, rfl, by simp⟩

theorem headNotDigit_arrTail (t : JsonArr) (rest : List Char) :
    headNotDigit (stringifyArrTail t ++ rest) = true := by
  obtain ⟨c, cs, heq, hc⟩ := arrTail_head t
  rw [heq, List.cons_append, headNotDigit]
  rcases hc with h | h <;> subst h <;> decide

theorem headNotDigit_objTail (t : JsonObj) (rest : List Char) :
    headNotDigit (stringifyObjTail t ++ rest) = true := by
  obtain ⟨c, cs, heq, hc⟩ := objTail_head t
  rw [heq, List.cons_append, headNotDigit]
  rcases hc with h | h <;> subst h <;> decide

theorem rtStmt (fuel : Nat) : RtStmt fuel := by
  induction fuel using Nat.strong_induction_on with
  | _ fuel ih =>
    refine ⟨?_, ?_, ?_, ?_, ?_⟩
    · intro j rest hsz hrest
      obtain ⟨f, rfl⟩ : ∃ f, fuel = f + 1 := ⟨fuel - 1, by have := sizeJ_pos j; omega⟩
      cases j with
      | null =>
        rw [show stringifyJ .null ++ rest = 'n' :: 'u' :: 'l' :: 'l' :: rest from rfl]
        rw [parseValue.eq_def]
        simp [dropLit]
      | bool b =>
        cases b
        · rw [show stringifyJ (.bool false) ++ rest
              = 'f' :: 'a' :: 'l' :: 's' :: 'e' :: rest from rfl]
          rw [parseValue.eq_def]
          simp [dropLit]
        · rw [show stringifyJ (.bool true) ++ rest = 't' :: 'r' :: 'u' :: 'e' :: rest from rfl]
          rw [parseValue.eq_def]
          simp [dropLit]
      | str s =>
        rw [show stringifyJ (.str s) ++ rest = '"' :: (escapeStr s ++ ('"' :: rest)) by
          simp [stringifyJ]]
        rw [parseValue.eq_def]
        simp [parseStringBody_round]
      | num i =>
        obtain ⟨hne, hdig, hval⟩ := natDigits_spec i.natAbs
        have htake := takeDigits_round (natDigits i.natAbs) rest hdig hrest
        obtain ⟨d, ds, hd⟩ := List.exists_cons_of_ne_nil hne
        have htake2 : takeDigits (d :: (ds ++ rest)) = (d :: ds, rest) := by
          rw [← List.cons_append, ← hd, htake, hd]
        by_cases hi : i < 0
        · have hv2 : -((digitsToNat (d :: ds) : Int)) = i := by rw [← hd, hval]; omega
          rw [show stringifyJ (.num i) ++ rest = '-' :: (d :: (ds ++ rest)) by
            simp [stringifyJ, stringifyInt, hi, hd]]
          rw [parseValue.eq_def]
          simp [htake2, hv2]
        · have hdd : d.isDigit = true := hdig d (by rw [hd]; simp)
          have q1 := digit_notLit d hdd 'n' (by decide)
          have q2 := digit_notLit d hdd 't' (by decide)
          have q3 := digit_notLit d hdd 'f' (by decide)
          have q4 := digit_notLit d hdd '"' (by decide)
          have q5 := digit_notLit d hdd '[' (by decide)
          have q6 := digit_notLit d hdd '{' (by decide)
          have q7 := digit_notLit d hdd '-' (by decide)
          have hv2 : ((digitsToNat (d :: ds) : Int)) = i := by rw [← hd, hval]; omega
          rw [show stringifyJ (.num i) ++ rest = d :: (ds ++ rest) by
            simp [stringifyJ, stringifyInt, hi, hd]]
          rw [parseValue.eq_def]
          simp [q1, q2, q3, q4, q5, q6, q7, hdd, htake2, hv2]
      | arr xs =>
        rw [show stringifyJ (.arr xs) ++ rest = '[' :: (stringifyArrHead xs ++ rest) by
          simp [stringifyJ]]
        rw [parseValue.eq_def]
        have h2 := (ih f (by omega)).2.1 xs rest (by simp [sizeJ] at hsz; omega)
        simp [h2]
      | obj xs =>
        rw [show stringifyJ (.obj xs) ++ rest = '{' :: (stringifyObjHead xs ++ rest) by
          simp [stringifyJ]]
        rw [parseValue.eq_def]
        have h4 := (ih f (by omega)).2.2.2.1 xs rest (by simp [sizeJ] at hsz; omega)
        simp [h4]
    · intro xs rest hsz
      obtain ⟨f, rfl⟩ : ∃ f, fuel = f + 1 := ⟨fuel - 1, by cases xs <;> simp [sizeA] at hsz <;> omega⟩
      cases xs with
      | nil =>
        rw [show stringifyArrHead .nil ++ rest = ']' :: rest by simp [stringifyArrHead]]
        rw [parseArrHead.eq_def]
        simp
      | cons h t =>
        obtain ⟨c, cs, hc, hcf⟩ := stringify_head h
        have hsz' : sizeJ h ≤ f ∧ sizeA t ≤ f := by simp [sizeA] at hsz; omega
        have h1 := (ih f (by omega)).1 h (stringifyArrTail t ++ rest) hsz'.1
          (headNotDigit_arrTail t rest)
        have h3 := (ih f (by omega)).2.2.1 t rest hsz'.2
        have hne : ¬c = ']' := by
          rcases hcf with h | h | h | h | h | h | h | h <;>
            first
            | (subst h; decide)
            | (exact digit_notLit c h ']' (by decide))
        rw [show stringifyArrHead (.cons h t) ++ rest
              = c :: (cs ++ (stringifyArrTail t ++ rest)) by
            simp [stringifyArrHead, hc]]
        rw [parseArrHead.eq_def]
        rw [hc] at h1
        simp only [List.cons_append] at h1
        simp [hne, h1, h3]
    · intro xs rest hsz
      obtain ⟨f, rfl⟩ : ∃ f, fuel = f + 1 := ⟨fuel - 1, by cases xs <;> simp [sizeA] at hsz <;> omega⟩
      cases xs with
      | nil =>
        rw [show stringifyArrTail .nil ++ rest = ']' :: rest by simp [stringifyArrTail]]
        rw [parseArrTail.eq_def]
        simp
      | cons h t =>
        have hsz' : sizeJ h ≤ f ∧ sizeA t ≤ f := by simp [sizeA] at hsz; omega
        have h1 := (ih f (by omega)).1 h (stringifyArrTail t ++ rest) hsz'.1
          (headNotDigit_arrTail t rest)
        have h3 := (ih f (by omega)).2.2.1 t rest hsz'.2
        rw [show stringifyArrTail (.cons h t) ++ rest
              = ',' :: (stringifyJ h ++ (stringifyArrTail t ++ rest)) by
            simp [stringifyArrTail]]
        rw [parseArrTail.eq_def]
        simp [h1, h3]
    · intro xs rest hsz
      obtain ⟨f, rfl⟩ : ∃ f, fuel = f + 1 := ⟨fuel - 1, by cases xs <;> simp [sizeO] at hsz <;> omega⟩
      cases xs with
      | nil =>
        rw [show stringifyObjHead .nil ++ rest = '}' :: rest by simp [stringifyObjHead]]
        rw [parseObjHead.eq_def]
        simp
      | cons k v t =>
        have hsz' : sizeJ v ≤ f ∧ sizeO t ≤ f := by simp [sizeO] at hsz; omega
        have h1 := (ih f (by omega)).1 v (stringifyObjTail t ++ rest) hsz'.1
          (headNotDigit_objTail t rest)
        have h5 := (ih f (by omega)).2.2.2.2 t rest hsz'.2
        have hstr := parseStringBody_round k (':' :: (stringifyJ v ++ (stringifyObjTail t ++ rest)))
        rw [show stringifyObjHead (.cons k v t) ++ rest
              = '"' :: (escapeStr k ++ ('"' :: (':' :: (stringifyJ v ++ (stringifyObjTail t ++ rest))))) by
            simp [stringifyObjHead]]
        rw [parseObjHead.eq_def]
        simp [hstr, h1, h5]
    · intro xs rest hsz
      obtain ⟨f, rfl⟩ : ∃ f, fuel = f + 1 := ⟨fuel - 1, by cases xs <;> simp [sizeO] at hsz <;> omega⟩
      cases xs with
      | nil =>
        rw [show stringifyObjTail .nil ++ rest = '}' :: rest by simp [stringifyObjTail]]
        rw [parseObjTail.eq_def]
        simp
      | cons k v t =>
        have hsz' : sizeJ v ≤ f ∧ sizeO t ≤ f := by simp [sizeO] at hsz; omega
        have h1 := (ih f (by omega)).1 v (stringifyObjTail t ++ rest) hsz'.1
          (headNotDigit_objTail t rest)
        have h5 := (ih f (by omega)).2.2.2.2 t rest hsz'.2
        have hstr := parseStringBody_round k (':' :: (stringifyJ v ++ (stringifyObjTail t ++ rest)))
        rw [show stringifyObjTail (.cons k v t) ++ rest
              = ',' :: ('"' :: (escapeStr k ++ ('"' :: (':' :: (stringifyJ v ++ (stringifyObjTail t ++ rest)))))) by
            simp [stringifyObjTail]]
        rw [parseObjTail.eq_def]
        simp [hstr, h1, h5]

theorem natDigits_length_pos (n : Nat) : 1 ≤ (natDigits n).length := by
  obtain ⟨hne, _, _⟩ := natDigits_spec n
  cases h : natDigits n with
  | nil => exact absurd h hne
  | cons d ds => simp

theorem sizes_le (n : Nat) :
    (∀ j : Json, sizeJ j ≤ n → sizeJ j ≤ (stringifyJ j).length) ∧
    (∀ a : JsonArr, sizeA a ≤ n →
      sizeA a ≤ (stringifyArrHead a).length ∧ sizeA a ≤ (stringifyArrTail a).length) ∧
    (∀ o : JsonObj, sizeO o ≤ n →
      sizeO o ≤ (stringifyObjHead o).length ∧ sizeO o ≤ (stringifyObjTail o).length) := by
  induction n using Nat.strong_induction_on with
  | _ n ih =>
    refine ⟨?_, ?_, ?_⟩
    · intro j hsz
      cases j with
      | null => decide
      | bool b => cases b <;> decide
      | num i =>
        have := natDigits_length_pos i.natAbs
        by_cases hi : i < 0
        · simp only [sizeJ, stringifyJ, stringifyInt, if_pos hi, List.length_cons]
          omega
        · simp only [sizeJ, stringifyJ, stringifyInt, if_neg hi]
          omega
      | str s => simp [sizeJ, stringifyJ]
      | arr xs =>
        simp only [sizeJ] at hsz ⊢
        have hn : sizeA xs ≤ n - 1 := by omega
        have := ((ih (n - 1) (by omega)).2.1 xs hn).1
        simp [stringifyJ]
        omega
      | obj xs =>
        simp only [sizeJ] at hsz ⊢
        have hn : sizeO xs ≤ n - 1 := by omega
        have := ((ih (n - 1) (by omega)).2.2 xs hn).1
        simp [stringifyJ]
        omega
    · intro a hsz
      cases a with
      | nil => simp [sizeA, stringifyArrHead, stringifyArrTail]
      | cons h t =>
        simp only [sizeA] at hsz ⊢
        have h1 : sizeJ h ≤ n - 1 := by omega
        have h2 : sizeA t ≤ n - 1 := by omega
        have i1 := (ih (n - 1) (by omega)).1 h h1
        have i2 := ((ih (n - 1) (by omega)).2.1 t h2).2
        have j1 := sizeJ_pos h
        have j2 : 1 ≤ sizeA t := by cases t <;> simp [sizeA]
        constructor
        · simp [stringifyArrHead]
          omega
        · simp [stringifyArrTail]
          omega
    · intro o hsz
      cases o with
      | nil => simp [sizeO, stringifyObjHead, stringifyObjTail]
      | cons k v t =>
        simp only [sizeO] at hsz ⊢
        have h1 : sizeJ v ≤ n - 1 := by omega
        have h2 : sizeO t ≤ n - 1 := by omega
        have i1 := (ih (n - 1) (by omega)).1 v h1
        have i2 := ((ih (n - 1) (by omega)).2.2 t h2).2
        have j1 := sizeJ_pos v
        have j2 : 1 ≤ sizeO t := by cases t <;> simp [sizeO]
        constructor
        · simp [stringifyObjHead]
          omega
        · simp [stringifyObjTail]
          omega

theorem jsonParse_stringify (j : Json) : jsonParse (stringifyJ j) = some j := by
  have hsz : sizeJ j ≤ (stringifyJ j).length + 1 := by
    have := (sizes_le (sizeJ j)).1 j (Nat.le_refl _)
    omega
  have h := (rtStmt ((stringifyJ j).length + 1)).1 j [] hsz (by decide)
  simp only [List.append_nil] at h
  rw [jsonParse, h]

/-! Local storage lemmas. -/

theorem getItem_setItem_self (st : Store) (k v : List Char) :
    getItem (setItem st k v) k = some v := by
  simp [setItem, getItem]

theorem getItem_setItem_ne (st : Store) (k v k2 : List Char) (h : k2 ≠ k) :
    getItem (setItem st k v) k2 = getItem st k2 := by
  simp [setItem, getItem, h]

theorem fileKey_ne_uploadedFiles (n : List Char) : fileKey n ≠ kUploadedFiles := by
  intro h
  have h2 := congrArg List.head? h
  rw [show (fileKey n).head? = some 'f' from rfl,
    show kUploadedFiles.head? = some 'u' from rfl] at h2
  exact absurd (Option.some.inj h2) (by decide)

theorem fileKey_ne_activeFiles (n : List Char) : fileKey n ≠ kActiveFiles := by
  intro h
  have h2 := congrArg List.head? h
  rw [show (fileKey n).head? = some 'f' from rfl,
    show kActiveFiles.head? = some 'a' from rfl] at h2
  exact absurd (Option.some.inj h2) (by decide)

theorem fileKey_ne_activeLayers (n : List Char) : fileKey n ≠ kActiveLayers := by
  intro h
  have h2 := congrArg List.head? h
  rw [show (fileKey n).head? = some 'f' from rfl,
    show kActiveLayers.head? = some 'a' from rfl] at h2
  exact absurd (Option.some.inj h2) (by decide)

/-! Encoding lemmas for persisted string lists. -/

theorem asStrArr_strArrOf (l : List (List Char)) : asStrArr (strArrOf l) = some l := by
  induction l with
  | nil => rfl
  | cons s t ih => simp [strArrOf, asStrArr, ih]

theorem decode_encode (l : List (List Char)) : decodeStrList (encodeStrList l) = some l := by
  simp [decodeStrList, encodeStrList, jsonParse_stringify, asStrList, asStrArr_strArrOf]

theorem encodeStrList_ne_nil (l : List (List Char)) : encodeStrList l ≠ [] := by
  rw [encodeStrList, show stringifyJ (.arr (strArrOf l)) = '[' :: stringifyArrHead (strArrOf l) by
    simp [stringifyJ]]
  simp

theorem validJson_encodeStrList (l : List (List Char)) : validJson (encodeStrList l) = true := by
  simp [validJson, encodeStrList, jsonParse_stringify]

theorem validJson_stringify (j : Json) : validJson (stringifyJ j) = true := by
  simp [validJson, jsonParse_stringify]

/-! Lemmas about the validity relation between stores. -/

theorem newValsValid_refl (st : Store) : newValsValid st st := fun _ _ h => Or.inl h

theorem newValsValid_setItem (st : Store) (k v : List Char) (hv : validJson v = true) :
    newValsValid st (setItem st k v) := by
  intro k2 v2 h
  by_cases hk : k2 = k
  · subst hk
    rw [getItem_setItem_self] at h
    injection h with h
    subst h
    exact Or.inr hv
  · rw [getItem_setItem_ne st k v k2 hk] at h
    exact Or.inl h

theorem newValsValid_trans (s1 s2 s3 : Store) (h12 : newValsValid s1 s2)
    (h23 : newValsValid s2 s3) : newValsValid s1 s3 := by
  intro k v h
  rcases h23 k v h with h2 | h2
  · exact h12 k v h2
  · exact Or.inr h2

/-! Lemmas about startsWith and replaceFirst. -/

theorem startsWith_append_self (pre t : List Char) : startsWith (pre ++ t) pre = true := by
  induction pre with
  | nil => simp [startsWith]
  | cons c cs ih => simp [startsWith, ih]

theorem startsWith_exists (s pre : List Char) (h : startsWith s pre = true) :
    ∃ t, s = pre ++ t := by
  induction pre generalizing s with
  | nil => exact ⟨s, rfl⟩
  | cons p ps ih =>
    cases s with
    | nil => simp [startsWith] at h
    | cons c cs =>
      simp only [startsWith, Bool.and_eq_true, beq_iff_eq] at h
      obtain ⟨t, ht⟩ := ih cs h.2
      exact ⟨t, by rw [h.1, ht, List.cons_append]⟩

theorem replaceFirst_skip (pat rep : List Char) (c : Char) (cs : List Char)
    (h : startsWith (c :: cs) pat = false) :
    replaceFirst pat rep (c :: cs) = c :: replaceFirst pat rep cs := by
  rw [replaceFirst.eq_def]
  simp [h]

theorem replaceFirst_eat (pat rep t : List Char) (hne : pat ≠ []) :
    replaceFirst pat rep (pat ++ t) = rep ++ t := by
  obtain ⟨c, cs, rfl⟩ : ∃ c cs, pat = c :: cs := by
    cases pat with
    | nil => exact absurd rfl hne
    | cons c cs => exact ⟨c, cs, rfl⟩
  rw [List.cons_append, replaceFirst.eq_def]
  have hs : startsWith (c :: (cs ++ t)) (c :: cs) = true := by
    rw [← List.cons_append]
    exact startsWith_append_self (c :: cs) t
  simp [hs, List.drop_succ_cons, List.drop_left]

theorem append_left_inj (l a b : List Char) (h : l ++ a = l ++ b) : a = b := by
  induction l with
  | nil => exact h
  | cons c cs ih =>
    rw [List.cons_append, List.cons_append] at h
    injection h with _ h2
    exact ih h2

theorem layerId_inj (f g : List Char) (h : layerId f = layerId g) : f = g :=
  append_left_inj _ _ _ h

theorem sourceId_inj (f g : List Char) (h : sourceId f = sourceId g) : f = g :=
  append_left_inj _ _ _ h

theorem layerToSource_layerId (f : List Char) : layerToSource (layerId f) = sourceId f := by
  have h1 : layerId f
      = 'g' :: 'e' :: 'o' :: 'j' :: 's' :: 'o' :: 'n' :: '-'
          :: (['l', 'a', 'y', 'e', 'r'] ++ ('-' :: f)) :=
    rfl
  have hpat : "layer".toList = ['l', 'a', 'y', 'e', 'r'] := rfl
  rw [layerToSource, hpat, h1]
  rw [replaceFirst_skip _ _ _ _ (by simp [startsWith]),
    replaceFirst_skip _ _ _ _ (by simp [startsWith]),
    replaceFirst_skip _ _ _ _ (by simp [startsWith]),
    replaceFirst_skip _ _ _ _ (by simp [startsWith]),
    replaceFirst_skip _ _ _ _ (by simp [startsWith]),
    replaceFirst_skip _ _ _ _ (by simp [startsWith]),
    replaceFirst_skip _ _ _ _ (by simp [startsWith]),
    replaceFirst_skip _ _ _ _ (by simp [startsWith])]
  rw [replaceFirst_eat _ _ _ (by decide)]
  rfl

theorem replaceGeoTag (f : List Char) : replaceFirst geoLayerTag [] (layerId f) = f := by
  rw [layerId, replaceFirst_eat _ _ _ (by decide), List.nil_append]

theorem contains_iff_mem (l : List (List Char)) (a : List Char) :
    l.contains a = true ↔ a ∈ l := by
  induction l with
  | nil => simp
  | cons x xs ih => simp [List.contains]

theorem staleLayer_layerId (af : List (List Char)) (f ty : List Char) :
    staleLayer af { id := layerId f, type := ty } = !(af.contains f) := by
  rw [staleLayer]
  simp only [layerId]
  rw [startsWith_append_self, ← layerId, replaceGeoTag]
  simp

/-! Claim theorems. -/

/-- C3: after handleLayerToggle with list L, the value stored under the
activeLayers key parses back to exactly L and a fresh mount restores the
active layer state to L; likewise the uploadedFiles and activeFiles state is
restored from whatever encoded list is stored under the uploadedFiles and
activeFiles keys. -/
theorem spec_C3_persist_round_trip (st : Store) (L : List (List Char)) :
    getItem (handleLayerToggle st L).1 kActiveLayers = some (encodeStrList L)
    ∧ decodeStrList (encodeStrList L) = some L
    ∧ mountActiveLayers (handleLayerToggle st L).1 = some L
    ∧ (∀ (st2 : Store) (F : List (List Char)),
        mountUploadedFiles (setItem st2 kUploadedFiles (encodeStrList F)) = some F)
    ∧ (∀ (st2 : Store) (A : List (List Char)),
        mountActiveFiles (setItem st2 kActiveFiles (encodeStrList A)) = some A) := by
  refine ⟨?_, decode_encode L, ?_, ?_, ?_⟩
  · simp only [handleLayerToggle]
    exact getItem_setItem_self ..
  · simp only [mountActiveLayers, mountList, handleLayerToggle]
    rw [getItem_setItem_self]
    simp [encodeStrList_ne_nil L, decode_encode L]
  · intro st2 F
    simp only [mountUploadedFiles, mountList]
    rw [getItem_setItem_self]
    simp [encodeStrList_ne_nil F, decode_encode F]
  · intro st2 A
    simp only [mountActiveFiles, mountList]
    rw [getItem_setItem_self]
    simp [encodeStrList_ne_nil A, decode_encode A]

/-- C9: handleFileDelete removes every occurrence of the name from both the
uploadedFiles and the activeFiles list as an order-preserving filter, persists
both filtered lists under their keys, and leaves the file content entry under
the file key untouched. -/
theorem spec_C9_delete (st : Store) (up ac : List (List Char)) (f : List Char) :
    (handleFileDelete st up ac f).uploadedFiles = up.filter (fun x => x != f)
    ∧ (handleFileDelete st up ac f).activeFiles = ac.filter (fun x => x != f)
    ∧ f ∉ (handleFileDelete st up ac f).uploadedFiles
    ∧ f ∉ (handleFileDelete st up ac f).activeFiles
    ∧ (handleFileDelete st up ac f).uploadedFiles.Sublist up
    ∧ (handleFileDelete st up ac f).activeFiles.Sublist ac
    ∧ getItem (handleFileDelete st up ac f).store kUploadedFiles
        = some (encodeStrList (up.filter (fun x => x != f)))
    ∧ getItem (handleFileDelete st up ac f).store kActiveFiles
        = some (encodeStrList (ac.filter (fun x => x != f)))
    ∧ getItem (handleFileDelete st up ac f).store (fileKey f) = getItem st (fileKey f) := by
  refine ⟨rfl, rfl, ?_, ?_, ?_, ?_, ?_, ?_, ?_⟩
  · intro h
    simp only [handleFileDelete, List.mem_filter] at h
    simp at h
  · intro h
    simp only [handleFileDelete, List.mem_filter] at h
    simp at h
  · exact List.filter_sublist up
  · exact List.filter_sublist ac
  · simp only [handleFileDelete]
    rw [getItem_setItem_ne _ _ _ _ (by decide), getItem_setItem_self]
  · simp only [handleFileDelete]
    rw [getItem_setItem_self]
  · simp only [handleFileDelete]
    rw [getItem_setItem_ne _ _ _ _ (fileKey_ne_activeFiles f),
      getItem_setItem_ne _ _ _ _ (fileKey_ne_uploadedFiles f)]

/-- C10: when local storage holds no activeLayers entry the initial active
layer list is exactly the singleton roads, and when it holds no uploadedFiles
or activeFiles entry the corresponding initial list is empty; this covers
both the mount effect of page version 1 and the lazy initializers of page
version 2. -/
theorem spec_C10_defaults (st : Store) :
    (getItem st kActiveLayers = none → mountActiveLayers st = some ["roads".toList])
    ∧ (getItem st kUploadedFiles = none → mountUploadedFiles st = some [])
    ∧ (getItem st kActiveFiles = none → mountActiveFiles st = some [])
    ∧ (getItem st kActiveLayers = none → initialActiveLayers st = ["roads".toList])
    ∧ (getItem st kUploadedFiles = none → initialUploadedFiles st = [])
    ∧ (getItem st kActiveFiles = none → initialActiveFiles st = []) := by
  refine ⟨?_, ?_, ?_, ?_, ?_, ?_⟩ <;> intro h <;>
    simp [mountActiveLayers, mountUploadedFiles, mountActiveFiles, mountList,
      initialActiveLayers, initialUploadedFiles, initialActiveFiles, getLocalStorageItem, h]

/-- Witness for C10 at the empty store. -/
theorem spec_C10_defaults_witness :
    getItem [] kActiveLayers = none ∧ mountActiveLayers [] = some ["roads".toList] :=
  ⟨rfl, (spec_C10_defaults []).1 rfl⟩

/-- C5: the transformRequest callback returns urls of the authenticated tile
provider unchanged with a bearer Authorization header built from the current
access token, the bearer value being empty when no token data is held, and
returns urls of the page origin, which is distinct from the tile provider
host, unchanged with same-origin credentials and no headers. -/
theorem spec_C5_transform_request (origin url : List Char) (token : Option (List Char)) :
    (startsWith url osApiBase = true →
      transformRequest origin token url
        = some { url := url
                 headers := [("Authorization".toList, "Bearer ".toList ++ token.getD []),
                             ("Content-Type".toList, "application/json".toList)]
                 credentials := none })
    ∧ (startsWith url origin = true → startsWith url osApiBase = false →
      transformRequest origin token url
        = some { url := url, headers := [], credentials := some "same-origin".toList }) := by
  constructor
  · intro h
    simp [transformRequest, h, bearerValue]
  · intro h1 h2
    simp [transformRequest, h1, h2]

/-- Witness for C5 at a concrete tile url, origin and token. -/
theorem spec_C5_transform_request_witness :
    startsWith "https://api.os.uk/maps/tile".toList osApiBase = true
    ∧ startsWith "https://app.example.com/api/tiles/1".toList
        "https://app.example.com".toList = true
    ∧ startsWith "https://app.example.com/api/tiles/1".toList osApiBase = false
    ∧ transformRequest "https://app.example.com".toList (some "tok".toList)
        "https://api.os.uk/maps/tile".toList
      = some { url := "https://api.os.uk/maps/tile".toList
               headers := [("Authorization".toList, "Bearer tok".toList),
                           ("Content-Type".toList, "application/json".toList)]
               credentials := none }
    ∧ transformRequest "https://app.example.com".toList none
        "https://app.example.com/api/tiles/1".toList
      = some { url := "https://app.example.com/api/tiles/1".toList
               headers := []
               credentials := some "same-origin".toList } := by
  refine ⟨by decide, by decide, by decide, ?_, ?_⟩
  · rw [(spec_C5_transform_request "https://app.example.com".toList
      "https://api.os.uk/maps/tile".toList (some "tok".toList)).1 (by decide)]
    decide
  · exact (spec_C5_transform_request "https://app.example.com".toList
      "https://app.example.com/api/tiles/1".toList none).2 (by decide) (by decide)

/-- C7 counterexample: the claim counts the consumed endpoints as two, but
the sources fetch three distinct endpoint paths. -/
theorem spec_C7_counterexample : consumedEndpoints.length ≠ 2 := by decide

/-- C7 amended: the endpoint paths fetched by the sources are the tile server
template, the remote-file-upload endpoint and the connections-listing
endpoint; they are pairwise distinct and their number is three, and the MVT
layer data url always starts with the tile endpoint template. -/
theorem spec_C7_amended :
    consumedEndpoints = [tilesEndpoint, uploadEndpoint, connectionsEndpoint]
    ∧ consumedEndpoints.length = 3
    ∧ consumedEndpoints.Nodup
    ∧ (∀ L, startsWith (mvtLayerData L) tilesEndpoint = true) := by
  refine ⟨rfl, rfl, by decide, ?_⟩
  intro L
  rw [mvtLayerData, List.append_assoc]
  exact startsWith_append_self ..

/-- C8: the modal-confirmed upload is atomic on failure: when JSON.parse of
the pending content fails, or the upload is remote and the response is not
ok, the store and the uploadedFiles state are unchanged, no file entry is
written, and uploadError is set to the fixed message; in every case the modal
is closed and the pending name and content are reset to empty. -/
theorem spec_C8_confirm_atomic (s : ConfirmState) (layerName : List Char)
    (isRemote : Bool) (resp : UploadResponse) :
    ((jsonParse s.pendingContent = none ∨ (isRemote = true ∧ resp = .notOk)) →
      (handleLayerNameConfirm s layerName isRemote resp).store = s.store
      ∧ (handleLayerNameConfirm s layerName isRemote resp).uploadedFiles = s.uploadedFiles
      ∧ (handleLayerNameConfirm s layerName isRemote resp).uploadError = some uploadErrMsg)
    ∧ ((handleLayerNameConfirm s layerName isRemote resp).modalOpen = false
      ∧ (handleLayerNameConfirm s layerName isRemote resp).pendingName = []
      ∧ (handleLayerNameConfirm s layerName isRemote resp).pendingContent = []) := by
  constructor
  · intro h
    rcases h with h | ⟨hr, hresp⟩
    · simp [handleLayerNameConfirm, h]
    · subst hr
      subst hresp
      cases hp : jsonParse s.pendingContent with
      | none => simp [handleLayerNameConfirm, hp]
      | some j => simp [handleLayerNameConfirm, hp]
  · cases hp : jsonParse s.pendingContent with
    | none => simp [handleLayerNameConfirm, hp]
    | some j =>
      cases isRemote with
      | false => simp [handleLayerNameConfirm, hp]
      | true => cases resp <;> simp [handleLayerNameConfirm, hp]

/-- Witness for C8 at a concrete state whose pending content fails to parse. -/
theorem spec_C8_confirm_atomic_witness :
    jsonParse (ConfirmState.pendingContent
        { store := [], uploadedFiles := [], uploadError := none, modalOpen := true,
          pendingName := [], pendingContent := ['x'] }) = none
    ∧ ((handleLayerNameConfirm
          { store := [], uploadedFiles := [], uploadError := none, modalOpen := true,
            pendingName := [], pendingContent := ['x'] } ['a'] false .notOk).store
        = ConfirmState.store
            { store := [], uploadedFiles := [], uploadError := none, modalOpen := true,
              pendingName := [], pendingContent := ['x'] }
      ∧ (handleLayerNameConfirm
          { store := [], uploadedFiles := [], uploadError := none, modalOpen := true,
            pendingName := [], pendingContent := ['x'] } ['a'] false .notOk).uploadedFiles
        = ConfirmState.uploadedFiles
            { store := [], uploadedFiles := [], uploadError := none, modalOpen := true,
              pendingName := [], pendingContent := ['x'] }
      ∧ (handleLayerNameConfirm
          { store := [], uploadedFiles := [], uploadError := none, modalOpen := true,
            pendingName := [], pendingContent := ['x'] } ['a'] false .notOk).uploadError
        = some uploadErrMsg) :=
  ⟨rfl, (spec_C8_confirm_atomic
    { store := [], uploadedFiles := [], uploadError := none, modalOpen := true,
      pendingName := [], pendingContent := ['x'] } ['a'] false .notOk).1 (Or.inl rfl)⟩

/-- C1 counterexample: after a modal-confirmed remote upload the value stored
under the file key is the url returned by the server, which does not parse as
JSON, so not every handler write stores a valid JSON string. -/
theorem spec_C1_counterexample :
    getItem (handleLayerNameConfirm
        { store := [], uploadedFiles := [], uploadError := none, modalOpen := true,
          pendingName := "a.geojson".toList, pendingContent := "\x7b\x7d".toList }
        ['a'] true (.okUrl "https://files.example.com/a.geojson".toList)).store
      (fileKey ['a'])
      = some "https://files.example.com/a.geojson".toList
    ∧ validJson "https://files.example.com/a.geojson".toList = false := by
  constructor
  · rfl
  · rfl

/-- C1 amended: every value written to local storage by the layer toggle,
drop, file upload, file delete, file toggle and local modal-confirmed upload
handlers is a valid JSON string; the remote modal-confirmed upload is the one
exception, and the only non-JSON value it can introduce is the server url
stored under the file key of the confirmed name. -/
theorem spec_C1_amended :
    (∀ st L, newValsValid st (handleLayerToggle st L).1)
    ∧ (∀ st up name content, newValsValid st (processDroppedFile st up name content).store)
    ∧ (∀ st up f, newValsValid st (handleFileUpload st up f).1)
    ∧ (∀ st up ac f, newValsValid st (handleFileDelete st up ac f).store)
    ∧ (∀ st ac f b, newValsValid st (handleFileToggle st ac f b).1)
    ∧ (∀ s n resp, newValsValid s.store (handleLayerNameConfirm s n false resp).store)
    ∧ (∀ s n, newValsValid s.store (handleLayerNameConfirm s n true .netError).store)
    ∧ (∀ s n, newValsValid s.store (handleLayerNameConfirm s n true .notOk).store)
    ∧ (∀ s n, newValsValid s.store (handleLayerNameConfirm s n true .okBadJson).store)
    ∧ (∀ s n url k v,
        getItem (handleLayerNameConfirm s n true (.okUrl url)).store k = some v →
          getItem s.store k = some v ∨ validJson v = true ∨ (k = fileKey n ∧ v = url)) := by
  refine ⟨?_, ?_, ?_, ?_, ?_, ?_, ?_, ?_, ?_, ?_⟩
  · intro st L
    exact newValsValid_setItem st _ _ (validJson_encodeStrList L)
  · intro st up name content
    by_cases he : endsWithJson name = true
    · cases hp : jsonParse content with
      | none =>
        simp only [processDroppedFile, he, hp, if_true]
        exact newValsValid_refl st
      | some j =>
        simp only [processDroppedFile, he, hp, if_true]
        exact newValsValid_trans _ _ _
          (newValsValid_setItem st _ _ (validJson_stringify j))
          (newValsValid_setItem _ _ _ (validJson_encodeStrList _))
    · simp only [Bool.not_eq_true] at he
      have hst : (processDroppedFile st up name content).store = st := by
        simp [processDroppedFile, he]
      rw [hst]
      exact newValsValid_refl st
  · intro st up f
    exact newValsValid_setItem st _ _ (validJson_encodeStrList _)
  · intro st up ac f
    simp only [handleFileDelete]
    exact newValsValid_trans _ _ _
      (newValsValid_setItem st _ _ (validJson_encodeStrList _))
      (newValsValid_setItem _ _ _ (validJson_encodeStrList _))
  · intro st ac f b
    exact newValsValid_setItem st _ _ (validJson_encodeStrList _)
  · intro s n resp
    cases hp : jsonParse s.pendingContent with
    | none => simp only [handleLayerNameConfirm, hp]; exact newValsValid_refl _
    | some j =>
      simp only [handleLayerNameConfirm, hp, if_false, Bool.false_eq_true]
      exact newValsValid_trans _ _ _
        (newValsValid_setItem _ _ _ (validJson_stringify j))
        (newValsValid_setItem _ _ _ (validJson_encodeStrList _))
  · intro s n
    cases hp : jsonParse s.pendingContent with
    | none => simp only [handleLayerNameConfirm, hp]; exact newValsValid_refl _
    | some j => simp only [handleLayerNameConfirm, hp]; exact newValsValid_refl _
  · intro s n
    cases hp : jsonParse s.pendingContent with
    | none => simp only [handleLayerNameConfirm, hp]; exact newValsValid_refl _
    | some j => simp only [handleLayerNameConfirm, hp]; exact newValsValid_refl _
  · intro s n
    cases hp : jsonParse s.pendingContent with
    | none => simp only [handleLayerNameConfirm, hp]; exact newValsValid_refl _
    | some j => simp only [handleLayerNameConfirm, hp]; exact newValsValid_refl _
  · intro s n url k v h
    cases hp : jsonParse s.pendingContent with
    | none =>
      simp only [handleLayerNameConfirm, hp] at h
      exact Or.inl h
    | some j =>
      simp only [handleLayerNameConfirm, hp, if_true] at h
      by_cases hk1 : k = kUploadedFiles
      · subst hk1
        rw [getItem_setItem_self] at h
        injection h with h
        exact Or.inr (Or.inl (h ▸ validJson_encodeStrList _))
      · rw [getItem_setItem_ne _ _ _ _ hk1] at h
        by_cases hk2 : k = fileKey n
        · subst hk2
          rw [getItem_setItem_self] at h
          injection h with h
          exact Or.inr (Or.inr ⟨rfl, h.symm⟩)
        · rw [getItem_setItem_ne _ _ _ _ hk2] at h
          exact Or.inl h

/-- Witness for C1 amended: the layer toggle component applied at the empty
store and a concrete list. -/
theorem spec_C1_amended_witness :
    getItem (handleLayerToggle [] [['r']]).1 kActiveLayers = some (encodeStrList [['r']])
    ∧ (getItem ([] : Store) kActiveLayers = some (encodeStrList [['r']])
        ∨ validJson (encodeStrList [['r']]) = true) :=
  ⟨rfl, spec_C1_amended.1 [] [['r']] kActiveLayers (encodeStrList [['r']]) rfl⟩

/-- C2 counterexample: a successful modal-confirmed remote upload appends the
name to uploadedFiles but stores the server url, not the GeoJSON content,
under the file key. -/
theorem spec_C2_counterexample :
    (handleLayerNameConfirm
        { store := [], uploadedFiles := [], uploadError := none, modalOpen := true,
          pendingName := "a.geojson".toList, pendingContent := "\x7b\x7d".toList }
        ['a'] true (.okUrl "https://files.example.com/a".toList)).uploadedFiles = [['a']]
    ∧ getItem (handleLayerNameConfirm
        { store := [], uploadedFiles := [], uploadError := none, modalOpen := true,
          pendingName := "a.geojson".toList, pendingContent := "\x7b\x7d".toList }
        ['a'] true (.okUrl "https://files.example.com/a".toList)).store (fileKey ['a'])
      = some "https://files.example.com/a".toList
    ∧ "https://files.example.com/a".toList ≠ "\x7b\x7d".toList := by
  refine ⟨rfl, rfl, by decide⟩

/-- C2 amended: for every successful upload the name is appended to the
uploadedFiles state and the list is persisted; the value stored under the
file key is the JSON re-serialization of the parsed content for drag-drop
and local modal uploads, and the server url for remote modal uploads. -/
theorem spec_C2_amended :
    (∀ st up name content j, endsWithJson name = true → jsonParse content = some j →
      getItem (processDroppedFile st up name content).store (fileKey name)
          = some (stringifyJ j)
      ∧ (processDroppedFile st up name content).uploadedFiles = up ++ [name]
      ∧ getItem (processDroppedFile st up name content).store kUploadedFiles
          = some (encodeStrList (up ++ [name])))
    ∧ (∀ s n resp j, jsonParse s.pendingContent = some j →
      getItem (handleLayerNameConfirm s n false resp).store (fileKey n)
          = some (stringifyJ j)
      ∧ (handleLayerNameConfirm s n false resp).uploadedFiles = s.uploadedFiles ++ [n]
      ∧ getItem (handleLayerNameConfirm s n false resp).store kUploadedFiles
          = some (encodeStrList (s.uploadedFiles ++ [n])))
    ∧ (∀ s n url j, jsonParse s.pendingContent = some j →
      getItem (handleLayerNameConfirm s n true (.okUrl url)).store (fileKey n) = some url
      ∧ (handleLayerNameConfirm s n true (.okUrl url)).uploadedFiles
          = s.uploadedFiles ++ [n]
      ∧ getItem (handleLayerNameConfirm s n true (.okUrl url)).store kUploadedFiles
          = some (encodeStrList (s.uploadedFiles ++ [n]))) := by
  refine ⟨?_, ?_, ?_⟩
  · intro st up name content j he hp
    have hstore : (processDroppedFile st up name content).store
        = setItem (setItem st (fileKey name) (stringifyJ j)) kUploadedFiles
            (encodeStrList (up ++ [name])) := by
      simp [processDroppedFile, he, hp]
    have hup : (processDroppedFile st up name content).uploadedFiles = up ++ [name] := by
      simp [processDroppedFile, he, hp]
    refine ⟨?_, hup, ?_⟩
    · rw [hstore, getItem_setItem_ne _ _ _ _ (fileKey_ne_uploadedFiles name),
        getItem_setItem_self]
    · rw [hstore, getItem_setItem_self]
  · intro s n resp j hp
    have hstore : (handleLayerNameConfirm s n false resp).store
        = setItem (setItem s.store (fileKey n) (stringifyJ j)) kUploadedFiles
            (encodeStrList (s.uploadedFiles ++ [n])) := by
      simp [handleLayerNameConfirm, hp]
    have hup : (handleLayerNameConfirm s n false resp).uploadedFiles
        = s.uploadedFiles ++ [n] := by
      simp [handleLayerNameConfirm, hp]
    refine ⟨?_, hup, ?_⟩
    · rw [hstore, getItem_setItem_ne _ _ _ _ (fileKey_ne_uploadedFiles n),
        getItem_setItem_self]
    · rw [hstore, getItem_setItem_self]
  · intro s n url j hp
    have hstore : (handleLayerNameConfirm s n true (.okUrl url)).store
        = setItem (setItem s.store (fileKey n) url) kUploadedFiles
            (encodeStrList (s.uploadedFiles ++ [n])) := by
      simp [handleLayerNameConfirm, hp]
    have hup : (handleLayerNameConfirm s n true (.okUrl url)).uploadedFiles
        = s.uploadedFiles ++ [n] := by
      simp [handleLayerNameConfirm, hp]
    refine ⟨?_, hup, ?_⟩
    · rw [hstore, getItem_setItem_ne _ _ _ _ (fileKey_ne_uploadedFiles n),
        getItem_setItem_self]
    · rw [hstore, getItem_setItem_self]

/-- Witness for C2 amended: a concrete drag-drop upload of an empty array. -/
theorem spec_C2_amended_witness :
    endsWithJson "a.json".toList = true
    ∧ jsonParse "[]".toList = some (.arr .nil)
    ∧ getItem (processDroppedFile [] [] "a.json".toList "[]".toList).store
        (fileKey "a.json".toList) = some (stringifyJ (.arr .nil))
    ∧ (processDroppedFile [] [] "a.json".toList "[]".toList).uploadedFiles
        = [] ++ ["a.json".toList]
    ∧ getItem (processDroppedFile [] [] "a.json".toList "[]".toList).store kUploadedFiles
        = some (encodeStrList ([] ++ ["a.json".toList])) := by
  refine ⟨by decide, rfl, ?_⟩
  exact spec_C2_amended.1 [] [] "a.json".toList "[]".toList (.arr .nil) (by decide) rfl

/-- C4 counterexample: a drag-dropped file whose content fails JSON.parse is
caught by the handler of page version 1, but the failure is only logged:
no user-visible error state is set and the page state is untouched. -/
theorem spec_C4_counterexample :
    endsWithJson "bad.json".toList = true
    ∧ jsonParse "nope".toList = none
    ∧ (processDroppedFile [] [] "bad.json".toList "nope".toList).uiError = none
    ∧ (processDroppedFile [] [] "bad.json".toList "nope".toList).store = []
    ∧ (processDroppedFile [] [] "bad.json".toList "nope".toList).uploadedFiles = [] := by
  decide

/-- C4 amended: failed fetches and failed JSON parses in the
connections-listing path set the modal error text, failures in the
modal-confirmed upload path set uploadError, and the modelled map error
handler always produces a message; but the version 1 drag-drop parse failure
and the per-file failures of the map sync effect are caught and logged only,
setting no user-visible error state and changing nothing. -/
theorem spec_C4_amended :
    ((fetchConnections .netError).error = some connErrMsg
      ∧ (fetchConnections .notOk).error = some connErrMsg
      ∧ (fetchConnections .okBadJson).error = some connErrMsg)
    ∧ (∀ s n b r, jsonParse s.pendingContent = none →
        (handleLayerNameConfirm s n b r).uploadError = some uploadErrMsg)
    ∧ (∀ s n r, (r = .netError ∨ r = .notOk ∨ r = .okBadJson) →
        (handleLayerNameConfirm s n true r).uploadError = some uploadErrMsg)
    ∧ (∀ err, (handleError "Map error".toList err).isSome = true)
    ∧ (∀ st up name content, jsonParse content = none →
        (processDroppedFile st up name content).uiError = none
        ∧ (processDroppedFile st up name content).store = st
        ∧ (processDroppedFile st up name content).uploadedFiles = up)
    ∧ (∀ st m f data, getItem st (fileKey f) = some data → jsonParse data = none →
        addFileLayer st m f = m) := by
  refine ⟨⟨rfl, rfl, rfl⟩, ?_, ?_, ?_, ?_, ?_⟩
  · intro s n b r hp
    simp [handleLayerNameConfirm, hp]
  · intro s n r hr
    cases hp : jsonParse s.pendingContent with
    | none => simp [handleLayerNameConfirm, hp]
    | some j =>
      rcases hr with hr | hr | hr <;> subst hr <;> simp [handleLayerNameConfirm, hp]
  · intro err
    simp [handleError]
  · intro st up name content hp
    by_cases he : endsWithJson name = true
    · simp [processDroppedFile, he, hp]
    · simp only [Bool.not_eq_true] at he
      simp [processDroppedFile, he]
  · intro st m f data hget hp
    by_cases hc : m.sources.contains (sourceId f) = true
    · unfold addFileLayer
      rw [if_pos hc]
    · simp only [Bool.not_eq_true] at hc
      simp [addFileLayer, hc, hget, hp]

/-- Witness for C4 amended: a concrete unparseable drop. -/
theorem spec_C4_amended_witness :
    jsonParse "nope".toList = none
    ∧ (processDroppedFile [] [] "bad.json".toList "nope".toList).uiError = none
    ∧ (processDroppedFile [] [] "bad.json".toList "nope".toList).store = []
    ∧ (processDroppedFile [] [] "bad.json".toList "nope".toList).uploadedFiles = [] :=
  ⟨rfl, spec_C4_amended.2.2.2.2.1 [] [] "bad.json".toList "nope".toList rfl⟩

/-! Lemmas for the map sync effect. -/

theorem staleLayer_of_id (af : List (List Char)) (l : MapLayer) (g : List Char)
    (hid : l.id = layerId g) : staleLayer af l = !(af.contains g) := by
  have h1 : startsWith l.id geoLayerTag = true := by
    rw [hid, layerId]
    exact startsWith_append_self ..
  have h2 : replaceFirst geoLayerTag [] l.id = g := by
    rw [hid]
    exact replaceGeoTag g
  rw [staleLayer, h1, h2]
  simp

theorem geo_id_decomp (id : List Char) (h : startsWith id geoLayerTag = true) :
    ∃ e, id = layerId e := by
  obtain ⟨t, ht⟩ := startsWith_exists id geoLayerTag h
  exact ⟨t, ht⟩

theorem addFileLayer_cases (st : Store) (m : MapState) (f : List Char) :
    addFileLayer st m f = m ∨
      (m.sources.contains (sourceId f) = false
        ∧ addFileLayer st m f
            = { layers := m.layers ++ [{ id := layerId f, type := "fill".toList }]
                sources := m.sources ++ [sourceId f] }) := by
  unfold addFileLayer
  split
  · exact Or.inl rfl
  next hc =>
    split
    · exact Or.inl rfl
    next data =>
      split
      · exact Or.inl rfl
      next j =>
        split
        · exact Or.inl rfl
        next tj =>
          split
          · exact Or.inr ⟨by simpa using hc, rfl⟩
          · exact Or.inl rfl

theorem foldl_add_extends (st : Store) (af : List (List Char)) :
    ∀ m : MapState, ∃ lt sr,
      (af.foldl (addFileLayer st) m).layers = m.layers ++ lt
      ∧ (af.foldl (addFileLayer st) m).sources = m.sources ++ sr
      ∧ (∀ l ∈ lt, ∃ g, g ∈ af ∧ l = { id := layerId g, type := "fill".toList })
      ∧ (∀ s ∈ sr, ∃ g, g ∈ af ∧ s = sourceId g) := by
  induction af with
  | nil =>
    intro m
    exact ⟨[], [], by simp, by simp, by simp, by simp⟩
  | cons g gs ih =>
    intro m
    obtain ⟨lt, sr, h1, h2, h3, h4⟩ := ih (addFileLayer st m g)
    rcases addFileLayer_cases st m g with heq | ⟨hc, heq⟩
    · rw [heq] at h1 h2
      refine ⟨lt, sr, ?_, ?_, ?_, ?_⟩
      · rw [List.foldl_cons, heq, h1]
      · rw [List.foldl_cons, heq, h2]
      · intro l hl
        obtain ⟨g2, hg2, he⟩ := h3 l hl
        exact ⟨g2, List.mem_cons_of_mem _ hg2, he⟩
      · intro s hs
        obtain ⟨g2, hg2, he⟩ := h4 s hs
        exact ⟨g2, List.mem_cons_of_mem _ hg2, he⟩
    · rw [heq] at h1 h2
      refine ⟨{ id := layerId g, type := "fill".toList } :: lt, sourceId g :: sr, ?_, ?_, ?_, ?_⟩
      · rw [List.foldl_cons, heq, h1]
        simp
      · rw [List.foldl_cons, heq, h2]
        simp
      · intro l hl
        rcases List.mem_cons.mp hl with hl | hl
        · exact ⟨g, List.mem_cons_self .., hl⟩
        · obtain ⟨g2, hg2, he⟩ := h3 l hl
          exact ⟨g2, List.mem_cons_of_mem _ hg2, he⟩
      · intro s hs
        rcases List.mem_cons.mp hs with hs | hs
        · exact ⟨g, List.mem_cons_self .., hs⟩
        · obtain ⟨g2, hg2, he⟩ := h4 s hs
          exact ⟨g2, List.mem_cons_of_mem _ hg2, he⟩

theorem geoWf_addFileLayer (st : Store) (m : MapState) (f : List Char) (h : geoWf m) :
    geoWf (addFileLayer st m f) := by
  obtain ⟨hiff, hfill⟩ := h
  rcases addFileLayer_cases st m f with heq | ⟨hc, heq⟩
  · rw [heq]
    exact ⟨hiff, hfill⟩
  · rw [heq]
    constructor
    · intro g
      constructor
      · intro hs
        rcases List.mem_append.mp hs with hs | hs
        · obtain ⟨l, hl, hid⟩ := (hiff g).mp hs
          exact ⟨l, List.mem_append.mpr (Or.inl hl), hid⟩
        · have hgf : g = f := sourceId_inj g f (by simpa using hs)
          subst hgf
          exact ⟨{ id := layerId g, type := "fill".toList },
            List.mem_append.mpr (Or.inr (by simp)), rfl⟩
      · rintro ⟨l, hl, hid⟩
        rcases List.mem_append.mp hl with hl | hl
        · exact List.mem_append.mpr (Or.inl ((hiff g).mpr ⟨l, hl, hid⟩))
        · have hle : l = { id := layerId f, type := "fill".toList } := by simpa using hl
          subst hle
          have hgf : f = g := layerId_inj f g (by simpa using hid)
          subst hgf
          exact List.mem_append.mpr (Or.inr (by simp))
    · intro l hl htag
      rcases List.mem_append.mp hl with hl | hl
      · exact hfill l hl htag
      · have hle : l = { id := layerId f, type := "fill".toList } := by simpa using hl
        subst hle
        rfl

theorem geoWf_foldl (st : Store) (af : List (List Char)) :
    ∀ m : MapState, geoWf m → geoWf (af.foldl (addFileLayer st) m) := by
  induction af with
  | nil => exact fun m h => h
  | cons g gs ih =>
    intro m h
    rw [List.foldl_cons]
    exact ih _ (geoWf_addFileLayer st m g h)

theorem geoWf_removeStale (m : MapState) (af : List (List Char)) (h : geoWf m) :
    geoWf (removeStale m af) := by
  obtain ⟨hiff, hfill⟩ := h
  constructor
  · intro g
    constructor
    · intro hs
      simp only [removeStale, List.mem_filter] at hs
      obtain ⟨hmem, hkeep⟩ := hs
      obtain ⟨l, hl, hid⟩ := (hiff g).mp hmem
      have hstale : staleLayer af l = false := by
        cases hx : staleLayer af l with
        | false => rfl
        | true =>
          exfalso
          have hany : m.layers.any
              (fun l2 => staleLayer af l2 && (layerToSource l2.id == sourceId g)) = true := by
            rw [List.any_eq_true]
            refine ⟨l, hl, ?_⟩
            rw [hx, hid, layerToSource_layerId]
            simp
          rw [hany] at hkeep
          simp at hkeep
      refine ⟨l, ?_, hid⟩
      simp only [removeStale, List.mem_filter]
      exact ⟨hl, by rw [hstale]; rfl⟩
    · rintro ⟨l, hl, hid⟩
      simp only [removeStale, List.mem_filter] at hl ⊢
      obtain ⟨hl, hns⟩ := hl
      refine ⟨(hiff g).mpr ⟨l, hl, hid⟩, ?_⟩
      cases hA : m.layers.any
          (fun l2 => staleLayer af l2 && (layerToSource l2.id == sourceId g)) with
      | false => rfl
      | true =>
        exfalso
        obtain ⟨l2, hl2, hP⟩ := List.any_eq_true.mp hA
        simp only [Bool.and_eq_true] at hP
        obtain ⟨hx, hmap⟩ := hP
        have hsw : startsWith l2.id geoLayerTag = true := by
          rw [staleLayer] at hx
          simp only [Bool.and_eq_true] at hx
          exact hx.1
        obtain ⟨e, he⟩ := geo_id_decomp l2.id hsw
        rw [he, layerToSource_layerId] at hmap
        have heg : e = g := sourceId_inj e g (by simpa using hmap)
        subst heg
        rw [staleLayer_of_id af l2 e he] at hx
        rw [staleLayer_of_id af l e hid] at hns
        simp only [Bool.not_eq_true'] at hx
        rw [hx] at hns
        simp at hns
  · intro l hl htag
    simp only [removeStale, List.mem_filter] at hl
    exact hfill l hl.1 htag

/-- C6 counterexample: a stored entry that exists and parses as GeoJSON, an
empty feature collection, is nevertheless not added by the sync effect: the
features[0].geometry read in the console.log line throws before addSource, so
neither the source nor the layer appears. -/
theorem spec_C6_counterexample :
    getItem [(fileKey ['a'], "\x7b\"type\":\"FeatureCollection\",\"features\":[]\x7d".toList)]
        (fileKey ['a'])
      = some "\x7b\"type\":\"FeatureCollection\",\"features\":[]\x7d".toList
    ∧ (jsonParse "\x7b\"type\":\"FeatureCollection\",\"features\":[]\x7d".toList).isSome = true
    ∧ ((jsonParse "\x7b\"type\":\"FeatureCollection\",\"features\":[]\x7d".toList).bind
        transformGeoJsonData).isSome = true
    ∧ syncEffect
        [(fileKey ['a'], "\x7b\"type\":\"FeatureCollection\",\"features\":[]\x7d".toList)]
        { layers := [], sources := [] } [['a']]
      = { layers := [], sources := [] } := by
  refine ⟨rfl, rfl, rfl, rfl⟩

/-- C6 amended: on a well-formed map state, after the sync effect every layer
carrying the geojson layer id of a non-active name is gone together with its
source, and for every active name whose stored entry exists, parses as JSON,
passes the feature-collection transform and has a non-empty feature array,
the map holds the geojson source and a fill layer for that name. -/
theorem spec_C6_amended (st : Store) (m : MapState) (af : List (List Char)) (hwf : geoWf m) :
    (∀ f, f ∉ af →
      (∀ l ∈ (syncEffect st m af).layers, l.id ≠ layerId f)
      ∧ sourceId f ∉ (syncEffect st m af).sources)
    ∧ (∀ f, f ∈ af → ∀ data j tj,
        getItem st (fileKey f) = some data → jsonParse data = some j →
        transformGeoJsonData j = some tj → hasFirstFeature tj = true →
          (∃ l ∈ (syncEffect st m af).layers, l.id = layerId f ∧ l.type = "fill".toList)
          ∧ sourceId f ∈ (syncEffect st m af).sources) := by
  constructor
  · intro f hf
    have hcf : af.contains f = false := by
      cases hcc : af.contains f with
      | false => rfl
      | true => exact absurd ((contains_iff_mem af f).mp hcc) hf
    obtain ⟨lt, sr, h1, h2, h3, h4⟩ := foldl_add_extends st af (removeStale m af)
    constructor
    · intro l hl hid
      simp only [syncEffect] at hl
      rw [h1] at hl
      rcases List.mem_append.mp hl with hl | hl
      · simp only [removeStale, List.mem_filter] at hl
        obtain ⟨hl, hkeep⟩ := hl
        rw [staleLayer_of_id af l f hid, hcf] at hkeep
        simp at hkeep
      · obtain ⟨g, hg, he⟩ := h3 l hl
        subst he
        have hgf : g = f := layerId_inj g f (by simpa using hid)
        subst hgf
        exact absurd hg hf
    · intro hs
      simp only [syncEffect] at hs
      rw [h2] at hs
      rcases List.mem_append.mp hs with hs | hs
      · simp only [removeStale, List.mem_filter] at hs
        obtain ⟨hmem, hkeep⟩ := hs
        obtain ⟨l, hl, hid⟩ := (hwf.1 f).mp hmem
        have hany : m.layers.any
            (fun l2 => staleLayer af l2 && (layerToSource l2.id == sourceId f)) = true := by
          rw [List.any_eq_true]
          refine ⟨l, hl, ?_⟩
          rw [staleLayer_of_id af l f hid, hcf, hid, layerToSource_layerId]
          simp
        rw [hany] at hkeep
        simp at hkeep
      · obtain ⟨g, hg, he⟩ := h4 (sourceId f) hs
        have hgf : f = g := sourceId_inj f g he
        subst hgf
        exact absurd hg hf
  · intro f hf data j tj hget hp ht hfeat
    obtain ⟨p, q, haf⟩ := List.append_of_mem hf
    subst haf
    have hwf1 : geoWf (p.foldl (addFileLayer st) (removeStale m (p ++ f :: q))) :=
      geoWf_foldl st p _ (geoWf_removeStale m _ hwf)
    simp only [syncEffect, List.foldl_append, List.foldl_cons]
    set m1 := p.foldl (addFileLayer st) (removeStale m (p ++ f :: q)) with hm1
    have hstep :
        (∃ l ∈ (addFileLayer st m1 f).layers, l.id = layerId f ∧ l.type = "fill".toList)
        ∧ sourceId f ∈ (addFileLayer st m1 f).sources := by
      cases hc : m1.sources.contains (sourceId f) with
      | true =>
        have hmem : sourceId f ∈ m1.sources := (contains_iff_mem _ _).mp hc
        obtain ⟨l, hl, hid⟩ := (hwf1.1 f).mp hmem
        have hfill : l.type = "fill".toList :=
          hwf1.2 l hl (by rw [hid, layerId]; exact startsWith_append_self ..)
        have heq : addFileLayer st m1 f = m1 := by
          unfold addFileLayer
          rw [if_pos hc]
        rw [heq]
        exact ⟨⟨l, hl, hid, hfill⟩, hmem⟩
      | false =>
        have hnm : sourceId f ∉ m1.sources := by
          intro hmm
          rw [(contains_iff_mem _ _).mpr hmm] at hc
          cases hc
        have heq : addFileLayer st m1 f
            = { layers := m1.layers ++ [{ id := layerId f, type := "fill".toList }]
                sources := m1.sources ++ [sourceId f] } := by
          unfold addFileLayer
          simp [hc, hnm, hget, hp, ht, hfeat]
        rw [heq]
        constructor
        · exact ⟨{ id := layerId f, type := "fill".toList },
            List.mem_append.mpr (Or.inr (by simp)), rfl, rfl⟩
        · exact List.mem_append.mpr (Or.inr (by simp))
    obtain ⟨lt, sr, h1, h2, h3, h4⟩ := foldl_add_extends st q (addFileLayer st m1 f)
    constructor
    · obtain ⟨l, hl, hid, hty⟩ := hstep.1
      exact ⟨l, by rw [h1]; exact List.mem_append.mpr (Or.inl hl), hid, hty⟩
    · rw [h2]
      exact List.mem_append.mpr (Or.inl hstep.2)

/-- Witness for C6 amended at a concrete store, the empty map state and a
feature collection with one feature. -/
theorem spec_C6_amended_witness :
    geoWf { layers := [], sources := [] }
    ∧ ((∃ l ∈ (syncEffect [(fileKey ['a'], "\x7b\"features\":[\x7b\x7d]\x7d".toList)]
          { layers := [], sources := [] } [['a']]).layers,
            l.id = layerId ['a'] ∧ l.type = "fill".toList)
        ∧ sourceId ['a'] ∈ (syncEffect
            [(fileKey ['a'], "\x7b\"features\":[\x7b\x7d]\x7d".toList)]
            { layers := [], sources := [] } [['a']]).sources) := by
  have hwf : geoWf { layers := ([] : List MapLayer), sources := ([] : List (List Char)) } := by
    constructor
    · intro f
      simp
    · intro l hl
      simp at hl
  refine ⟨hwf, ?_⟩
  exact (spec_C6_amended _ _ _ hwf).2 ['a'] (by simp)
    "\x7b\"features\":[\x7b\x7d]\x7d".toList
    (.obj (.cons "features".toList (.arr (.cons (.obj .nil) .nil)) .nil))
    (.obj (.cons "features".toList (.arr (.cons (.obj .nil) .nil)) .nil))
    rfl rfl rfl rfl

/-- Witness for C3 at the empty store and a concrete layer list. -/
theorem spec_C3_persist_round_trip_witness :
    mountActiveLayers (handleLayerToggle [] [['r']]).1 = some [['r']] :=
  (spec_C3_persist_round_trip [] [['r']]).2.2.1

/-- Witness for C9 at concrete lists. -/
theorem spec_C9_delete_witness :
    (handleFileDelete [] [['a'], ['b']] [['a']] ['a']).uploadedFiles
      = [['a'], ['b']].filter (fun x => x != ['a']) :=
  (spec_C9_delete [] [['a'], ['b']] [['a']] ['a']).1
